import Mathlib

/-!
Verification development for the Discord bump-bot task orchestration engine
(`src/1.py`): the duration parser, the message extractor, the one-shot
scheduler, the bump workflow state machine, and the double-space helper are
embedded as executable Lean functions, and the spec's claims about them are
settled as theorems.

Conventions of the embedding:
* Python strings are `List Char` internally (wrapped in `String` at the API).
* Character classes of the Python regexes (`\d`, `\s`, `\w`, `[a-zа-яё]`)
  are embedded over the scripts this program actually handles (ASCII and
  Cyrillic); the program's own vocabulary never leaves those ranges.
* Timestamps (`time.time()`) are modelled as integers; the code only
  compares and adds them.
-/

namespace BumpBot

/-- `\d` of the Python regexes: an ASCII decimal digit. -/
def pyIsDigit (c : Char) : Bool := 48 ≤ c.toNat && c.toNat ≤ 57

/-- `\s` of the Python regexes: whitespace (ASCII range). -/
def isWS (c : Char) : Bool :=
  c.toNat = 32 || c.toNat = 9 || c.toNat = 10 || c.toNat = 13 || c.toNat = 11 || c.toNat = 12

/-- The character class `[;:\.\,\(\)\[\]«»]` replaced by spaces in
`parse_duration_to_seconds`. -/
def isPunctChar (c : Char) : Bool :=
  c.toNat = 59 || c.toNat = 58 || c.toNat = 46 || c.toNat = 44 || c.toNat = 40 ||
  c.toNat = 41 || c.toNat = 91 || c.toNat = 93 || c.toNat = 171 || c.toNat = 187

/-- The unit-word class `[a-zа-яё]` of the `(\d+)\s*([a-zа-яё]+)` scan. -/
def isUnitLetter (c : Char) : Bool :=
  (97 ≤ c.toNat && c.toNat ≤ 122) || (1072 ≤ c.toNat && c.toNat ≤ 1103) || c.toNat = 1105

/-- `\w` for the word-boundary `\b` checks: ASCII alphanumerics, underscore,
and the Cyrillic block used by the two supported languages. -/
def isWordChar (c : Char) : Bool :=
  (48 ≤ c.toNat && c.toNat ≤ 57) || (97 ≤ c.toNat && c.toNat ≤ 122) ||
  (65 ≤ c.toNat && c.toNat ≤ 90) || c.toNat = 95 ||
  (1024 ≤ c.toNat && c.toNat ≤ 1279)

/-- Python `str.lower()` on the alphabets in play: ASCII `A-Z` and the
Cyrillic capitals `А-Я`, `Ё`. -/
def pyLower (c : Char) : Char :=
  if 65 ≤ c.toNat ∧ c.toNat ≤ 90 then Char.ofNat (c.toNat + 32)
  else if 1040 ≤ c.toNat ∧ c.toNat ≤ 1071 then Char.ofNat (c.toNat + 32)
  else if c.toNat = 1025 then Char.ofNat 1105
  else c

/-- Numeric value of a decimal digit char, as Python `int` sees it. -/
def digitVal (c : Char) : Nat := c.toNat - 48

/-- Value of a digit string, as Python `int(...)` computes it. -/
def digitsVal (d : List Char) : Nat := d.foldl (fun a c => 10 * a + digitVal c) 0

/-- `\b` to the right of a match: the next character (if any) is not a word
character. -/
def boundaryAfter : List Char → Bool
  | [] => true
  | c :: _ => !isWordChar c

/-- One attempt of the ordered alternation `\b(и|в|на|c|со|cо|с)\b` at the
current position (`c :: rest`); the `\b` on the left is checked by the caller.
Returns how many characters the matched stop-word consumes.  The alternative
`c` is the Latin letter, `со` is fully Cyrillic, `cо` is Latin `c` followed
by Cyrillic `о`, mirroring the bytes of the source pattern, in the source's
order (Python tries alternatives left to right and backtracks to the next
alternative when the trailing `\b` fails). -/
def stopMatch (c : Char) (rest : List Char) : Option Nat :=
  if c = 'и' ∧ boundaryAfter rest then some 1
  else if c = 'в' ∧ boundaryAfter rest then some 1
  else if c = 'н' ∧ rest.head? = some 'а' ∧ boundaryAfter rest.tail then some 2
  else if c = 'c' ∧ boundaryAfter rest then some 1
  else if c = 'с' ∧ rest.head? = some 'о' ∧ boundaryAfter rest.tail then some 2
  else if c = 'c' ∧ rest.head? = some 'о' ∧ boundaryAfter rest.tail then some 2
  else if c = 'с' ∧ boundaryAfter rest then some 1
  else none

/-- `re.sub(r"\b(и|в|на|c|со|cо|с)\b", " ", s)`: left-to-right scan replacing
each stop-word occurrence by a single space.  `prevWord` records whether the
character before the current position is a word character (the left `\b`
holds exactly when it is not, since every alternative starts with a word
character); after a match the scan resumes right after the consumed word. -/
def removeStopsAux : Bool → List Char → List Char
  | _, [] => []
  | true, c :: rest => c :: removeStopsAux (isWordChar c) rest
  | false, [c] =>
    match stopMatch c [] with
    | some _ => ' ' :: removeStopsAux true []
    | none => c :: removeStopsAux (isWordChar c) []
  | false, c :: d :: rest =>
    match stopMatch c (d :: rest) with
    | some n =>
      if n = 1 then ' ' :: removeStopsAux true (d :: rest)
      else ' ' :: removeStopsAux true rest
    | none => c :: removeStopsAux (isWordChar c) (d :: rest)

/-- `re.sub(r"\s+", " ", s)`: collapse every whitespace run to one space.
The flag records whether the previous character was whitespace. -/
def collapseWSAux : Bool → List Char → List Char
  | _, [] => []
  | prevWS, c :: rest =>
    if isWS c then
      if prevWS then collapseWSAux true rest else ' ' :: collapseWSAux true rest
    else c :: collapseWSAux false rest

/-- Python `str.strip()`: drop whitespace from both ends. -/
def stripWS (l : List Char) : List Char :=
  ((l.dropWhile isWS).reverse.dropWhile isWS).reverse

/-- Scanner state for `re.finditer(r"(\d+)\s*([a-zа-яё]+)", s)`. -/
inductive ScanSt
  | idle
  | num (a : Nat)
  | sp (a : Nat)
  | word (a : Nat) (w : List Char)

/-- Left-to-right scan of `re.finditer(r"(\d+)\s*([a-zа-яё]+)", s)`,
returning `(int(group 1), group 2)` for each non-overlapping match.
`num` is inside the greedy `\d+`, `sp` inside the greedy `\s*` that follows,
`word` inside the greedy `[a-zа-яё]+` (accumulated reversed); a failed
attempt resumes the scan at the offending character, which — as in the
Python engine — can only start a fresh `\d+`. -/
def scanAux : ScanSt → List Char → List (Nat × List Char)
  | st, [] =>
    match st with
    | .word a w => [(a, w.reverse)]
    | _ => []
  | st, c :: rest =>
    match st with
    | .idle =>
      if pyIsDigit c then scanAux (.num (digitVal c)) rest else scanAux .idle rest
    | .num a =>
      if pyIsDigit c then scanAux (.num (10 * a + digitVal c)) rest
      else if isWS c then scanAux (.sp a) rest
      else if isUnitLetter c then scanAux (.word a [c]) rest
      else scanAux .idle rest
    | .sp a =>
      if isWS c then scanAux (.sp a) rest
      else if isUnitLetter c then scanAux (.word a [c]) rest
      else if pyIsDigit c then scanAux (.num (digitVal c)) rest
      else scanAux .idle rest
    | .word a w =>
      if isUnitLetter c then scanAux (.word a (c :: w)) rest
      else
        (a, w.reverse) ::
          (if pyIsDigit c then scanAux (.num (digitVal c)) rest else scanAux .idle rest)

/-- `re.findall(r"\d+", s)` followed by `int(...)`: the values of the maximal
digit runs, in order.  `cur` is the value of the run in progress. -/
def allNumsAux : Option Nat → List Char → List Nat
  | cur, [] =>
    match cur with
    | some a => [a]
    | none => []
  | cur, c :: rest =>
    if pyIsDigit c then allNumsAux (some (10 * cur.getD 0 + digitVal c)) rest
    else
      match cur with
      | some a => a :: allNumsAux none rest
      | none => allNumsAux none rest

/-- The `unit_map` lookup on `m.group(2)[0]`: hour glyphs `ч`/`h` weigh 3600,
minute glyphs `м`/`m` weigh 60, second glyphs `с`/`s` weigh 1; an unknown
first letter has no entry (the match is skipped, contributing nothing). -/
def unitMult (c : Char) : Option Nat :=
  if c = 'ч' ∨ c = 'h' then some 3600
  else if c = 'м' ∨ c = 'm' then some 60
  else if c = 'с' ∨ c = 's' then some 1
  else none

/-- `m.group(2)[0]`: the first character of a match's unit word (the scanner
only ever produces non-empty words, so the default is never consulted). -/
def firstCharD (w : List Char) : Char := w.headD ' '

/-- The normalisation stages of `parse_duration_to_seconds`
(src/1.py:115-123): cut at the first comma, lower-case, turn punctuation
into spaces, drop connective stop-words, collapse whitespace, strip. -/
def pdClean (text : String) : List Char :=
  let l0 := text.data
  let l1 := if l0.contains ',' then l0.takeWhile (fun c => c ≠ ',') else l0
  let l2 := l1.map pyLower
  let l3 := l2.map (fun c => if isPunctChar c then ' ' else c)
  let l4 := removeStopsAux false l3
  stripWS (collapseWSAux false l4)

/-- The summation stages of `parse_duration_to_seconds` (src/1.py:125-147):
sum the `<integer><unit-word>` matches weighted by the first letter of the
word; if that sum is zero, fall back to bare numbers (three or more:
`H M S ...`; two: `M S`; one: `S`; none: zero). -/
def pdTotal (text : String) : Nat :=
  let l5 := pdClean text
  let total1 : Nat := (scanAux .idle l5).foldl (fun t m =>
    match unitMult (firstCharD m.2) with
    | some k => t + k * m.1
    | none => t) 0
  if total1 = 0 then
    match allNumsAux none l5 with
    | n1 :: n2 :: n3 :: _ => n1 * 3600 + n2 * 60 + n3
    | [n1, n2] => n1 * 60 + n2
    | [n1] => n1
    | [] => 0
  else total1

/-- `parse_duration_to_seconds` (src/1.py:110-152): the total of `pdTotal`
when strictly positive, `none` otherwise.  The Python body is wrapped in a
catch-all `except` returning `None`; this embedding is total, so no failure
can propagate. -/
def parse_duration_to_seconds (text : String) : Option Nat :=
  if 0 < pdTotal text then some (pdTotal text) else none

/-! ### Message extraction (`extract_latest_bump_message`, `parse_time_from_message`) -/

/-- Case-insensitive literal match (the `(?i)` flag of the source patterns):
if `lit` (given lower-case) heads `l` up to `pyLower`, return the rest. -/
def ciLit : List Char → List Char → Option (List Char)
  | [], l => some l
  | _, [] => none
  | a :: as_, b :: bs => if pyLower b = a then ciLit as_ bs else none

/-- One attempt of `(?:/up|/bump|/like)` at the current position. -/
def slashCmdAt (l : List Char) : Option (List Char) :=
  match ciLit ['/', 'u', 'p'] l with
  | some r => some r
  | none =>
    match ciLit ['/', 'b', 'u', 'm', 'p'] l with
    | some r => some r
    | none => ciLit ['/', 'l', 'i', 'k', 'e'] l

/-- `re.search(r"(?:/up|/bump|/like).*?\d", line)` as a Boolean: some
occurrence of a command is followed (anywhere later) by a digit. -/
def cmdDigitSearch : List Char → Bool
  | [] => false
  | c :: rest =>
    match slashCmdAt (c :: rest) with
    | some after => if after.any pyIsDigit then true else cmdDigitSearch rest
    | none => cmdDigitSearch rest

/-- Python `str.splitlines()` restricted to `\n` separators (the only line
break the program's captured text uses): split on `\n`, without a trailing
empty line for text ending in `\n`, and `[]` for the empty string. -/
def splitNLAux (cur : List Char) : List Char → List (List Char)
  | [] => [cur.reverse]
  | c :: rest =>
    if c = '\n' then cur.reverse :: splitNLAux [] rest else splitNLAux (c :: cur) rest

/-- See `splitNLAux`. -/
def pySplitlines (l : List Char) : List (List Char) :=
  if l = [] then []
  else if l.getLast? = some '\n' then (splitNLAux [] l).dropLast
  else splitNLAux [] l

/-- Python `str.rstrip()`: drop trailing whitespace. -/
def rstripWS (l : List Char) : List Char := (l.reverse.dropWhile isWS).reverse

/-- `extract_latest_bump_message` (src/1.py:388-408): keep the non-blank
lines (right-stripped) in which a command is followed by a digit, and return
the last five of them joined by `\n`, or `none` when the text is empty or no
line qualifies. -/
def extract_latest_bump_message (full_text : String) : Option String :=
  if full_text = "" then none
  else
    let lines := ((pySplitlines full_text.data).filter
        (fun ln => stripWS ln ≠ [])).map rstripWS
    let candidate := lines.filter cmdDigitSearch
    if candidate = [] then none
    else some (String.mk (List.intercalate ['\n'] (candidate.drop (candidate.length - 5))))

/-- One attempt of `(?i)(/up|/bump|/like|!\s*up|!\s*bump|!\s*like)` at the
current position, alternatives in the source's order. -/
def cmdTokenAt (l : List Char) : Option (List Char) :=
  match slashCmdAt l with
  | some r => some r
  | none =>
    match l with
    | '!' :: rest =>
      let r := rest.dropWhile isWS
      match ciLit ['u', 'p'] r with
      | some r2 => some r2
      | none =>
        match ciLit ['b', 'u', 'm', 'p'] r with
        | some r2 => some r2
        | none => ciLit ['l', 'i', 'k', 'e'] r
    | _ => none

/-- `re.search` with the pattern of `cmdTokenAt`: leftmost match; returns the
text after the match end. -/
def findCmdToken : List Char → Option (List Char)
  | [] => none
  | c :: rest =>
    match cmdTokenAt (c :: rest) with
    | some r => some r
    | none => findCmdToken rest

/-- The character set of `strip(" :‑–—,.;|#")` in `_extract_time_from_line`
(the three dashes are U+2011, U+2013, U+2014). -/
def isStripChar (c : Char) : Bool :=
  c.toNat = 32 || c.toNat = 58 || c.toNat = 8209 || c.toNat = 8211 ||
  c.toNat = 8212 || c.toNat = 44 || c.toNat = 46 || c.toNat = 59 ||
  c.toNat = 124 || c.toNat = 35

/-- Python `str.strip(chars)`: drop the given characters from both ends. -/
def stripChars (p : Char → Bool) (l : List Char) : List Char :=
  ((l.dropWhile p).reverse.dropWhile p).reverse

/-- `_extract_time_from_line` (src/1.py:416-428): find the first command
token, strip separators around the remainder of the line, cut at the first
comma, and hand the rest to the duration parser. -/
def extract_time_from_line (line : List Char) : Option Nat :=
  match findCmdToken line with
  | none => none
  | some after0 =>
    let after1 := stripChars isStripChar after0
    let after2 := if after1.contains ',' then after1.takeWhile (fun c => c ≠ ',') else after1
    parse_duration_to_seconds (String.mk after2)

/-- `re.search(rf"(?i){re.escape(cmd)}", line)` as a Boolean: `line` contains
`cmd` case-insensitively. -/
def containsCI (cmd : List Char) : List Char → Bool
  | [] => (ciLit cmd []).isSome
  | c :: rest => if (ciLit cmd (c :: rest)).isSome then true else containsCI cmd rest

/-- The inner `for line in block.splitlines(): ... break` of
`parse_time_from_message`: the first line containing `cmd` decides the
command's value (whether or not its duration parses); later lines are never
consulted for that command. -/
def lookupCmdTime (cmd : List Char) : List (List Char) → Option Nat
  | [] => none
  | ln :: rest => if containsCI cmd ln then extract_time_from_line ln else lookupCmdTime cmd rest

/-- The dictionary returned by `parse_time_from_message`. -/
structure ParseResult where
  up : Option Nat
  bump : Option Nat
  like : Option Nat
  success : Bool
deriving DecidableEq

/-- `parse_time_from_message` (src/1.py:431-462): extract the candidate
block; on failure (or a falsy block) report all-`none` with
`success = false`; otherwise resolve each of the three commands from the
first block line that mentions it, with `success` true iff at least one of
them got a value. -/
def parse_time_from_message (message_text : String) : ParseResult :=
  match extract_latest_bump_message message_text with
  | none => ⟨none, none, none, false⟩
  | some block =>
    if block = "" then ⟨none, none, none, false⟩
    else
      let ls := pySplitlines block.data
      let u := lookupCmdTime ['/', 'u', 'p'] ls
      let b := lookupCmdTime ['/', 'b', 'u', 'm', 'p'] ls
      let k := lookupCmdTime ['/', 'l', 'i', 'k', 'e'] ls
      ⟨u, b, k, u.isSome || b.isSome || k.isSome⟩

/-! ### Double-space post-processing (`_apply_double_space`) -/

/-- The sentence punctuation class `[.!?]` of `_apply_double_space`. -/
def isSentPunct (c : Char) : Bool := c = '.' || c = '!' || c = '?'

/-- Is the next character whitespace (`\s+` can start here)? -/
def headWS : List Char → Bool
  | [] => false
  | c :: _ => isWS c

/-- `re.sub(r"([.!?])\s+", group 1 + two spaces, text)`: each sentence
punctuation mark followed by a whitespace run is reprinted with exactly two
spaces and the run is consumed; `skip` is true while consuming such a run. -/
def dsSubAux : Bool → List Char → List Char
  | _, [] => []
  | skip, c :: rest =>
    if skip && isWS c then dsSubAux true rest
    else if isSentPunct c && headWS rest then c :: ' ' :: ' ' :: dsSubAux true rest
    else c :: dsSubAux false rest

/-- Python `text.endswith("  ")`. -/
def ends2 : List Char → Bool
  | [] => false
  | [_] => false
  | [a, b] => a = ' ' && b = ' '
  | _ :: b :: c :: rest => ends2 (b :: c :: rest)

/-- `_apply_double_space` (src/1.py:198-207) on the character list: run the
substitution, then append two spaces unless the text already ends with two. -/
def applyDS (l : List Char) : List Char :=
  if ends2 (dsSubAux false l) then dsSubAux false l
  else dsSubAux false l ++ [' ', ' ']

/-- `_apply_double_space` (src/1.py:198-207). -/
def apply_double_space (text : String) : String := String.mk (applyDS text.data)

/-! ### One-shot scheduler (`execute_scheduled_tasks`, `cleanup_old_tasks`) -/

/-- `status` of a scheduled one-shot command. -/
inductive SStatus
  | pending
  | executed
  | error
deriving DecidableEq

/-- A record of the `scheduled_tasks` list.  `time` is the epoch timestamp
`fire_at`; `created_at` (a display string) is informational only and omitted. -/
structure STask where
  id : String
  time : Int
  command : String
  double_enter : Bool
  double_space : Bool
  status : SStatus
  source_task_id : Option Nat := none
  executed_at : Option Int := none
deriving DecidableEq

/-- `execute_scheduled_tasks` (src/1.py:637-662) with the Action Executor
(`send_message`) injected as a pure success predicate.  One pass over the
list: an entry is skipped when its status is not `pending` or its time has
not come; otherwise the executor is invoked with
`(command, double_enter, double_space)` and the entry is marked `executed`
(recording `executed_at = now`) or `error` and moved to the completed pile,
which is removed from the active list at the end of the pass.  Returns
`(remaining active list, completed pile, executor invocations in order)`. -/
def execute_scheduled_tasks (now : Int) (send : String → Bool → Bool → Bool) :
    List STask → List STask × List STask × List (String × Bool × Bool)
  | [] => ([], [], [])
  | t :: rest =>
    if t.status ≠ SStatus.pending ∨ now < t.time then
      let r := execute_scheduled_tasks now send rest
      (t :: r.1, r.2.1, r.2.2)
    else
      let t' :=
        if send t.command t.double_enter t.double_space then
          { t with status := SStatus.executed, executed_at := some now }
        else { t with status := SStatus.error }
      let r := execute_scheduled_tasks now send rest
      (r.1, t' :: r.2.1, (t.command, t.double_enter, t.double_space) :: r.2.2)

/-- `cleanup_old_tasks` (src/1.py:665-675): keep exactly the entries with
`time > now - max_age`, regardless of status. -/
def cleanup_old_tasks (now maxAge : Int) (tasks : List STask) : List STask :=
  tasks.filter (fun t => decide (now - maxAge < t.time))

/-! ### Bump workflow engine (`execute_bump_tasks`) -/

/-- `status` of a bump workflow. -/
inductive BStatus
  | waiting
  | sending
  | waiting_response
  | reading
  | parsing
  | scheduling
  | completed
  | failed
deriving DecidableEq

/-- A record of the `bump_tasks` list.  `response_deadline` and `message`
carry the defaults the Python `dict.get` calls supply; `created_at` (a
display string) is informational only and omitted. -/
structure BTask where
  id : Nat
  command : String
  start_time : Int
  commands_to_schedule : List String
  double_enter : Bool
  double_space : Bool
  status : BStatus
  response_deadline : Int := 0
  message : String := ""
  parsed_times : ParseResult := ⟨none, none, none, false⟩
  scheduled_subtasks : List STask := []
deriving DecidableEq

/-- The global flag `DOUBLE_SPACE_ENABLED` of the configuration section. -/
def DOUBLE_SPACE_ENABLED : Bool := true

/-- `task["parsed_times"].get(cmd)` for the keys the workflow can schedule. -/
def getParsed (pr : ParseResult) (cmd : String) : Option Nat :=
  if cmd = "/up" then pr.up
  else if cmd = "/bump" then pr.bump
  else if cmd = "/like" then pr.like
  else none

/-- `_schedule_parsed_commands` (src/1.py:598-634): for each command to
schedule whose parsed time is truthy (present and non-zero), append a
`pending` subtask firing at `now + secs + 10`.  Returns the new subtasks in
order. -/
def schedule_parsed_commands (now : Int) (t : BTask) : List STask :=
  t.commands_to_schedule.filterMap (fun cmd =>
    match getParsed t.parsed_times cmd with
    | none => none
    | some secs =>
      if secs = 0 then none
      else some
        { id := "bump_" ++ toString t.id ++ "_" ++ cmd
          time := now + Int.ofNat secs + 10
          command := cmd
          double_enter := t.double_enter
          double_space := DOUBLE_SPACE_ENABLED
          status := SStatus.pending
          source_task_id := some t.id })

/-- The per-tick collaborators of a bump workflow: the Action Executor
(`send_message`) and the UI Capture (`get_last_bump_message`). -/
structure BumpEnv where
  send : String → Bool → Bool → Bool
  capture : Option String

/-- One `if/elif` dispatch of `execute_bump_tasks` (src/1.py:737-786) for a
single workflow: at most one branch runs per call.  `none` means the
workflow was removed from the active list (`failed`/`completed` branch);
otherwise the updated workflow is returned together with the subtasks its
`scheduling` branch appended to the one-shot scheduler. -/
def bumpStep (now : Int) (env : BumpEnv) (t : BTask) : Option (BTask × List STask) :=
  if t.status = BStatus.waiting ∧ t.start_time ≤ now then
    some ({ t with status := BStatus.sending }, [])
  else if t.status = BStatus.sending then
    if env.send t.command t.double_enter t.double_space then
      some ({ t with status := BStatus.waiting_response, response_deadline := now + 5 }, [])
    else some ({ t with status := BStatus.failed }, [])
  else if t.status = BStatus.waiting_response ∧ t.response_deadline ≤ now then
    some ({ t with status := BStatus.reading }, [])
  else if t.status = BStatus.reading then
    match env.capture with
    | some m =>
      if m = "" then some ({ t with status := BStatus.failed }, [])
      else some ({ t with message := m, status := BStatus.parsing }, [])
    | none => some ({ t with status := BStatus.failed }, [])
  else if t.status = BStatus.parsing then
    let parsed := parse_time_from_message t.message
    if parsed.success then
      some ({ t with parsed_times := parsed, status := BStatus.scheduling }, [])
    else some ({ t with status := BStatus.failed }, [])
  else if t.status = BStatus.scheduling then
    let subs := schedule_parsed_commands now t
    some ({ t with scheduled_subtasks := t.scheduled_subtasks ++ subs
                   status := BStatus.completed }, subs)
  else if t.status = BStatus.failed ∨ t.status = BStatus.completed then none
  else some (t, [])

/-- `execute_bump_tasks` (src/1.py:737-786): one pass over a snapshot of the
active workflow list, dispatching each workflow once; removed workflows
(terminal on entry) drop out, and the subtasks all `scheduling` branches
created are collected in order. -/
def execute_bump_tasks (now : Int) (env : BumpEnv) :
    List BTask → List BTask × List STask
  | [] => ([], [])
  | t :: rest =>
    match bumpStep now env t with
    | none => execute_bump_tasks now env rest
    | some (t', subs) =>
      let r := execute_bump_tasks now env rest
      (t' :: r.1, subs ++ r.2)

/-- Iterated engine ticks (the driver's repeated calls from `main_loop`),
each with its own clock value and collaborators. -/
def ticksFrom : List (Int × BumpEnv) → List BTask → List BTask
  | [], ts => ts
  | (n, e) :: rest, ts => ticksFrom rest (execute_bump_tasks n e ts).1

/-! ### Fault propagation (`execute_scheduled_tasks` inside `main_loop`)

`send_message` can raise (its clipboard path has no handler), and neither
`execute_scheduled_tasks` nor `execute_bump_tasks` wraps per-entity work in
`try`; the only handler is the `except Exception` around the whole `while`
of `main_loop` (src/1.py:961-990), which logs and leaves the loop.  Here the
executor may return an exception (`Except.error`), and the tick mirrors the
Python control flow: the exception aborts the pass where it occurs.  The
error value also records the executor invocations made before the fault, so
that what was and was not processed is observable. -/

/-- An Action Executor invocation `(command, double_enter, double_space)`. -/
abbrev Call := String × Bool × Bool

/-- `execute_scheduled_tasks` with a fallible executor: identical to
`execute_scheduled_tasks` except that an executor exception propagates,
abandoning the rest of the pass (no later entry is examined, no completed
entry is removed). -/
def execute_scheduled_tasksE (now : Int)
    (send : String → Bool → Bool → Except String Bool) :
    List STask → Except (String × List Call) (List STask × List STask × List Call)
  | [] => Except.ok ([], [], [])
  | t :: rest =>
    if t.status ≠ SStatus.pending ∨ now < t.time then
      match execute_scheduled_tasksE now send rest with
      | Except.ok r => Except.ok (t :: r.1, r.2.1, r.2.2)
      | Except.error e => Except.error e
    else
      match send t.command t.double_enter t.double_space with
      | Except.error msg =>
        Except.error (msg, [(t.command, t.double_enter, t.double_space)])
      | Except.ok ok =>
        let t' :=
          if ok then { t with status := SStatus.executed, executed_at := some now }
          else { t with status := SStatus.error }
        match execute_scheduled_tasksE now send rest with
        | Except.ok r =>
          Except.ok (r.1, t' :: r.2.1, (t.command, t.double_enter, t.double_space) :: r.2.2)
        | Except.error e =>
          Except.error (e.1, (t.command, t.double_enter, t.double_space) :: e.2)

/-- The `while True` of `main_loop` over the scheduler stage: one
`execute_scheduled_tasks` pass per listed clock value.  An exception from a
pass reaches the loop's single `except Exception` handler, which ends the
loop, so iteration stops there.  Returns how many further iterations
completed after the current one started, and the propagated exception (if
any). -/
def tickLoopE (send : String → Bool → Bool → Except String Bool) :
    List Int → List STask → Nat × Option String
  | [], _ => (0, none)
  | n :: rest, tasks =>
    match execute_scheduled_tasksE n send tasks with
    | Except.error e => (0, some e.1)
    | Except.ok r =>
      let k := tickLoopE send rest r.1
      (k.1 + 1, k.2)

/-! ## Claims -/

/-- C1: `parse_time_from_message` on the three-line sample block returns
`/up = 1515`, `/bump = 9395`, `/like = 13152` with `success = true`. -/
theorem C1_parse_commands_sample :
    parse_time_from_message
        (":SDC: /up: 25 минут и 15 секунд, 17:24:25\n:ServerMonitoring: /bump: 2 часа 36 минут и 35 секунд, 19:35:44\n:DSMonitoring: /like: 3 часа 39 минут и 12 секунд, 20:38:22") =
      ⟨some 1515, some 9395, some 13152, true⟩ := by
  rfl

/-- C5 (counterexample): the claim says no entry with
`fire_at ≥ now - max_age` is removed, but `cleanup_old_tasks` keeps only
entries with `fire_at > now - max_age`: an entry sitting exactly at
`now - max_age` is removed. -/
theorem C5_counterexample :
    cleanup_old_tasks 300 300
        [{ id := "stale", time := 0, command := "/up", double_enter := false,
           double_space := true, status := SStatus.executed }] = [] ∧
      ¬ ((0 : Int) < 300 - 300) := by
  exact ⟨rfl, by decide⟩

/-- C5 (amended): `cleanup_old_tasks now max_age` removes exactly the
entries with `fire_at ≤ now - max_age` — equivalently it keeps exactly
those with `fire_at > now - max_age` — regardless of their status. -/
theorem C5_cleanup_boundary (now maxAge : Int) (tasks : List STask) (t : STask) :
    t ∈ cleanup_old_tasks now maxAge tasks ↔ t ∈ tasks ∧ now - maxAge < t.time := by
  simp [cleanup_old_tasks]

/-- The spec's description of a due entry: `pending` with `fire_at <= now`.
(The source loop skips exactly the entries with
`status != "pending" or now < time`.) -/
def dueNow (now : Int) (t : STask) : Bool :=
  t.status == SStatus.pending && decide (t.time ≤ now)

/-- The spec's description of retiring a due entry: mark `executed`
(stamping `executed_at`) when the executor succeeds, `error` when it fails. -/
def retire (now : Int) (send : String → Bool → Bool → Bool) (t : STask) : STask :=
  if send t.command t.double_enter t.double_space then
    { t with status := SStatus.executed, executed_at := some now }
  else { t with status := SStatus.error }

/-- The executor invocation a due entry triggers. -/
def callOf (t : STask) : String × Bool × Bool := (t.command, t.double_enter, t.double_space)

/-- The source's skip condition is the negation of `dueNow`. -/
theorem skip_iff_not_due (now : Int) (t : STask) :
    (t.status ≠ SStatus.pending ∨ now < t.time) ↔ dueNow now t = false := by
  simp only [dueNow, Bool.and_eq_false_iff, beq_eq_false_iff_ne, ne_eq,
    decide_eq_false_iff_not, not_le]

/-- One scheduler pass, described by the spec's due/retire vocabulary:
the surviving active list is exactly the non-due entries (in order), the
completed pile is exactly the due entries retired, and the executor is
invoked exactly once per due entry, in order. -/
theorem scheduled_tick_eq (now : Int) (send : String → Bool → Bool → Bool)
    (tasks : List STask) :
    execute_scheduled_tasks now send tasks =
      (tasks.filter (fun t => !dueNow now t),
       (tasks.filter (dueNow now)).map (retire now send),
       (tasks.filter (dueNow now)).map callOf) := by
  induction tasks with
  | nil => rfl
  | cons t rest ih =>
    by_cases hd : dueNow now t = true
    · have hc : ¬ (t.status ≠ SStatus.pending ∨ now < t.time) := by
        rw [skip_iff_not_due, hd]
        simp
      simp [execute_scheduled_tasks, if_neg hc, ih, List.filter_cons, hd, retire, callOf]
    · have hd' : dueNow now t = false := by
        simpa using hd
      have hc : t.status ≠ SStatus.pending ∨ now < t.time :=
        (skip_iff_not_due now t).mpr hd'
      simp [execute_scheduled_tasks, if_pos hc, ih, List.filter_cons, hd']

/-- C2: in a scheduler tick, every `pending` entry whose `fire_at` has
passed triggers exactly one executor invocation, is marked `executed` when
the executor succeeds and `error` when it fails, and leaves the active
collection by the end of that same tick; every other entry is kept
unchanged, in order. -/
theorem C2_scheduler_tick (now : Int) (send : String → Bool → Bool → Bool)
    (tasks : List STask) :
    execute_scheduled_tasks now send tasks =
      (tasks.filter (fun t => !dueNow now t),
       (tasks.filter (dueNow now)).map (retire now send),
       (tasks.filter (dueNow now)).map callOf) ∧
    (∀ t ∈ tasks, dueNow now t = true →
      t ∉ (execute_scheduled_tasks now send tasks).1 ∧
      ((send t.command t.double_enter t.double_space = true ∧
          (retire now send t).status = SStatus.executed) ∨
        (send t.command t.double_enter t.double_space = false ∧
          (retire now send t).status = SStatus.error))) := by
  refine ⟨scheduled_tick_eq now send tasks, ?_⟩
  intro t _ht hd
  constructor
  · rw [scheduled_tick_eq]
    intro hmem
    rcases List.mem_filter.mp hmem with ⟨_, hkeep⟩
    rw [hd] at hkeep
    cases hkeep
  · by_cases hs : send t.command t.double_enter t.double_space = true
    · exact Or.inl ⟨hs, by simp [retire, hs]⟩
    · have hs' : send t.command t.double_enter t.double_space = false := by simpa using hs
      exact Or.inr ⟨hs', by simp [retire, hs']⟩

/-- An executor succeeding exactly on `/up`, for the C2 instantiation. -/
def c2send : String → Bool → Bool → Bool := fun c _ _ => c == "/up"

/-- A due entry for the C2 instantiation. -/
def c2a : STask :=
  { id := "a", time := 3, command := "/up", double_enter := false,
    double_space := true, status := SStatus.pending }

/-- A not-yet-due entry for the C2 instantiation. -/
def c2b : STask :=
  { id := "b", time := 9, command := "/like", double_enter := false,
    double_space := true, status := SStatus.pending }

/-- Concrete instantiation of the C2 theorem: one due entry and one not yet
due, with an executor that succeeds on `/up`. -/
theorem C2_scheduler_tick_witness :
    (execute_scheduled_tasks 5 c2send [c2a, c2b] =
      ([c2a, c2b].filter (fun t => !dueNow 5 t),
       ([c2a, c2b].filter (dueNow 5)).map (retire 5 c2send),
       ([c2a, c2b].filter (dueNow 5)).map callOf) ∧
    (∀ t ∈ [c2a, c2b], dueNow 5 t = true →
      t ∉ (execute_scheduled_tasks 5 c2send [c2a, c2b]).1 ∧
      ((c2send t.command t.double_enter t.double_space = true ∧
          (retire 5 c2send t).status = SStatus.executed) ∨
        (c2send t.command t.double_enter t.double_space = false ∧
          (retire 5 c2send t).status = SStatus.error)))) :=
  C2_scheduler_tick 5 c2send [c2a, c2b]

/-- The one-step edges of the bump workflow state table (section 4.4 of the
spec): `waiting → sending`, `sending → waiting_response | failed`,
`waiting_response → reading`, `reading → parsing | failed`,
`parsing → scheduling | failed`, `scheduling → completed`. -/
def bumpEdge : BStatus → BStatus → Bool
  | BStatus.waiting, BStatus.sending => true
  | BStatus.sending, BStatus.waiting_response => true
  | BStatus.sending, BStatus.failed => true
  | BStatus.waiting_response, BStatus.reading => true
  | BStatus.reading, BStatus.parsing => true
  | BStatus.reading, BStatus.failed => true
  | BStatus.parsing, BStatus.scheduling => true
  | BStatus.parsing, BStatus.failed => true
  | BStatus.scheduling, BStatus.completed => true
  | _, _ => false

/-- C9: one `execute_bump_tasks` dispatch moves a workflow along at most one
edge of the state table — the status either stays put or follows a single
transition; no workflow crosses two states in one tick. -/
theorem C9_single_step (now : Int) (env : BumpEnv) (t t' : BTask) (subs : List STask)
    (h : bumpStep now env t = some (t', subs)) :
    t'.status = t.status ∨ bumpEdge t.status t'.status = true := by
  rcases ht : t.status with _ | _ | _ | _ | _ | _ | _ | _
  · -- waiting
    by_cases hs : t.start_time ≤ now
    · simp [bumpStep, ht, hs] at h
      right
      simp [← h.1, ht, bumpEdge]
    · simp [bumpStep, ht, hs] at h
      left
      simp [← h.1, ht]
  · -- sending
    by_cases hs : env.send t.command t.double_enter t.double_space = true
    · simp [bumpStep, ht, hs] at h
      right
      simp [← h.1, ht, bumpEdge]
    · simp [bumpStep, ht, hs] at h
      right
      simp [← h.1, ht, bumpEdge]
  · -- waiting_response
    by_cases hs : t.response_deadline ≤ now
    · simp [bumpStep, ht, hs] at h
      right
      simp [← h.1, ht, bumpEdge]
    · simp [bumpStep, ht, hs] at h
      left
      simp [← h.1, ht]
  · -- reading
    rcases hc : env.capture with _ | m
    · simp [bumpStep, ht, hc] at h
      right
      simp [← h.1, ht, bumpEdge]
    · by_cases hm : m = ""
      · simp [bumpStep, ht, hc, hm] at h
        right
        simp [← h.1, ht, bumpEdge]
      · simp [bumpStep, ht, hc, hm] at h
        right
        simp [← h.1, ht, bumpEdge]
  · -- parsing
    by_cases hp : (parse_time_from_message t.message).success = true
    · simp [bumpStep, ht, hp] at h
      right
      simp [← h.1, ht, bumpEdge]
    · simp [bumpStep, ht, hp] at h
      right
      simp [← h.1, ht, bumpEdge]
  · -- scheduling
    simp [bumpStep, ht] at h
    right
    simp [← h.1, ht, bumpEdge]
  · -- completed
    simp [bumpStep, ht] at h
  · -- failed
    simp [bumpStep, ht] at h

/-- Concrete instantiation of the C9 theorem: a `waiting` workflow whose
start time has come advances exactly one edge (to `sending`). -/
theorem C9_single_step_witness :
    { id := 0, command := "/getbump", start_time := 1,
      commands_to_schedule := ["/up"], double_enter := false,
      double_space := true, status := BStatus.sending : BTask }.status =
      ({ id := 0, command := "/getbump", start_time := 1,
         commands_to_schedule := ["/up"], double_enter := false,
         double_space := true, status := BStatus.waiting : BTask }).status ∨
    bumpEdge
      ({ id := 0, command := "/getbump", start_time := 1,
         commands_to_schedule := ["/up"], double_enter := false,
         double_space := true, status := BStatus.waiting : BTask }).status
      ({ id := 0, command := "/getbump", start_time := 1,
         commands_to_schedule := ["/up"], double_enter := false,
         double_space := true, status := BStatus.sending : BTask }).status = true :=
  C9_single_step 4 ⟨fun _ _ _ => true, none⟩
    { id := 0, command := "/getbump", start_time := 1,
      commands_to_schedule := ["/up"], double_enter := false,
      double_space := true, status := BStatus.waiting }
    { id := 0, command := "/getbump", start_time := 1,
      commands_to_schedule := ["/up"], double_enter := false,
      double_space := true, status := BStatus.sending }
    [] rfl

/-- Unfolding of the substitution scan outside a whitespace run. -/
theorem dsSubAux_false_cons (c : Char) (rest : List Char) :
    dsSubAux false (c :: rest) =
      if isSentPunct c && headWS rest then c :: ' ' :: ' ' :: dsSubAux true rest
      else c :: dsSubAux false rest := by
  simp [dsSubAux]

/-- The substitution never changes the first character. -/
theorem dsSubAux_false_head (l : List Char) :
    headWS (dsSubAux false l) = headWS l := by
  cases l with
  | nil => rfl
  | cons c rest =>
    rw [dsSubAux_false_cons]
    split <;> rfl

/-- The substitution maps non-empty input to non-empty output. -/
theorem dsSubAux_false_ne_nil (c : Char) (rest : List Char) :
    dsSubAux false (c :: rest) ≠ [] := by
  rw [dsSubAux_false_cons]
  split <;> simp

/-- While skipping, the scan consumes the whitespace run and then behaves
as outside one. -/
theorem dsSubAux_true_eq (l : List Char) :
    dsSubAux true l = dsSubAux false (l.dropWhile isWS) := by
  induction l with
  | nil => rfl
  | cons c rest ih =>
    by_cases h : isWS c = true
    · rw [List.dropWhile_cons_of_pos h, ← ih]
      simp [dsSubAux, h]
    · have h' : isWS c = false := by simpa using h
      rw [List.dropWhile_cons_of_neg (by simp [h'])]
      simp [dsSubAux, h']

/-- The skip flag is irrelevant at a non-whitespace character. -/
theorem dsSubAux_nonws (b : Bool) (c : Char) (rest : List Char) (h : isWS c = false) :
    dsSubAux b (c :: rest) = dsSubAux false (c :: rest) := by
  cases b <;> simp [dsSubAux, h]

/-- The head of a `dropWhile isWS` result is not whitespace. -/
theorem dropWhile_ws_head (l : List Char) (c : Char) (rest : List Char)
    (h : l.dropWhile isWS = c :: rest) : isWS c = false := by
  induction l with
  | nil => cases h
  | cons a as ih =>
    by_cases ha : isWS a = true
    · rw [List.dropWhile_cons_of_pos ha] at h
      exact ih h
    · have ha' : isWS a = false := by simpa using ha
      rw [List.dropWhile_cons_of_neg (by simp [ha'])] at h
      cases h
      exact ha'

/-- `dropWhile` does not lengthen a list. -/
theorem dropWhile_ws_length (l : List Char) :
    (l.dropWhile isWS).length ≤ l.length := by
  induction l with
  | nil => simp
  | cons a as ih =>
    by_cases h : isWS a = true
    · rw [List.dropWhile_cons_of_pos h]
      exact le_trans ih (by simp)
    · rw [List.dropWhile_cons_of_neg (by simpa using h)]

/-- The substitution of `_apply_double_space` is idempotent (fuel form). -/
theorem dsSub_idem_fuel :
    ∀ (n : Nat) (l : List Char), l.length ≤ n →
      dsSubAux false (dsSubAux false l) = dsSubAux false l := by
  intro n
  induction n with
  | zero =>
    intro l hl
    have : l = [] := List.length_eq_zero.mp (Nat.le_zero.mp hl)
    rw [this]
    rfl
  | succ n ih =>
    intro l hl
    cases l with
    | nil => rfl
    | cons c rest =>
      by_cases h : (isSentPunct c && headWS rest) = true
      · rw [dsSubAux_false_cons, if_pos h]
        have hpunct : isSentPunct c = true := by
          have h2 := h
          simp only [Bool.and_eq_true] at h2
          exact h2.1
        rw [dsSubAux_true_eq rest]
        have hRlen : (rest.dropWhile isWS).length ≤ n := by
          have h1 := dropWhile_ws_length rest
          have h2 : rest.length ≤ n := by simpa using Nat.succ_le_succ_iff.mp hl
          omega
        rw [dsSubAux_false_cons]
        have hcond : (isSentPunct c &&
            headWS (' ' :: ' ' :: dsSubAux false (rest.dropWhile isWS))) = true := by
          simp [hpunct, headWS, isWS]
        rw [if_pos hcond]
        have hskip : dsSubAux true (' ' :: ' ' :: dsSubAux false (rest.dropWhile isWS)) =
            dsSubAux true (dsSubAux false (rest.dropWhile isWS)) := by
          simp [dsSubAux, isWS]
        rw [hskip]
        have hfix : dsSubAux true (dsSubAux false (rest.dropWhile isWS)) =
            dsSubAux false (rest.dropWhile isWS) := by
          rcases hT : dsSubAux false (rest.dropWhile isWS) with _ | ⟨t0, T'⟩
          · rfl
          · have hRne : rest.dropWhile isWS ≠ [] := by
              intro hR0
              rw [hR0] at hT
              cases hT
            rcases hRc : rest.dropWhile isWS with _ | ⟨r0, R'⟩
            · exact absurd hRc hRne
            · have hr0 : isWS r0 = false := dropWhile_ws_head rest r0 R' hRc
              have hh := dsSubAux_false_head (rest.dropWhile isWS)
              rw [hT, hRc] at hh
              have ht0ws : isWS t0 = false := by
                simpa [headWS, hr0] using hh
              rw [dsSubAux_nonws true t0 T' ht0ws, ← hT, ih _ hRlen]
        rw [hfix]
      · have h' : (isSentPunct c && headWS rest) = false := by simpa using h
        rw [dsSubAux_false_cons, if_neg (by simp [h'])]
        rw [dsSubAux_false_cons]
        have hcond : (isSentPunct c && headWS (dsSubAux false rest)) = false := by
          rw [dsSubAux_false_head]
          exact h'
        rw [if_neg (by simp [hcond])]
        have hrest : rest.length ≤ n := by simpa using Nat.succ_le_succ_iff.mp hl
        rw [ih rest hrest]

/-- The substitution of `_apply_double_space` is idempotent. -/
theorem dsSub_idem (l : List Char) :
    dsSubAux false (dsSubAux false l) = dsSubAux false l :=
  dsSub_idem_fuel l.length l le_rfl

/-- Appending two spaces makes `endswith("  ")` hold. -/
theorem ends2_append_sp (l : List Char) : ends2 (l ++ [' ', ' ']) = true := by
  induction l with
  | nil => rfl
  | cons a as ih =>
    cases as with
    | nil => rfl
    | cons b bs =>
      cases bs with
      | nil => exact ih
      | cons d ds => exact ih

/-- A list satisfying `endswith("  ")` decomposes as something plus two
spaces. -/
theorem ends2_exists : ∀ l : List Char, ends2 l = true → ∃ u, l = u ++ [' ', ' '] := by
  intro l
  induction l with
  | nil =>
    intro h
    cases h
  | cons a as ih =>
    intro h
    cases as with
    | nil => cases h
    | cons b bs =>
      cases bs with
      | nil =>
        have hab : (a = ' ' && b = ' ') = true := h
        simp only [Bool.and_eq_true, decide_eq_true_eq] at hab
        exact ⟨[], by rw [hab.1, hab.2]; rfl⟩
      | cons d ds =>
        rcases ih h with ⟨u, hu⟩
        exact ⟨a :: u, by rw [List.cons_append, ← hu]⟩

/-- A sentence punctuation mark, its two replacement spaces and a following
non-whitespace character pass through the substitution scan unchanged. -/
theorem dsSub_punct_block (c t0 : Char) (M : List Char)
    (hpunct : isSentPunct c = true) (ht0ws : isWS t0 = false) :
    dsSubAux false (c :: ' ' :: ' ' :: t0 :: M) =
      c :: ' ' :: ' ' :: dsSubAux false (t0 :: M) := by
  rw [dsSubAux_false_cons,
    if_pos (by simp [hpunct, headWS, isWS] :
      (isSentPunct c && headWS (' ' :: ' ' :: t0 :: M)) = true)]
  have h1 : dsSubAux true (' ' :: ' ' :: t0 :: M) = dsSubAux true (t0 :: M) := by
    simp [dsSubAux, isWS]
  rw [h1, dsSubAux_nonws true t0 M ht0ws]

/-- Appending the final two spaces to an already-substituted text leaves the
substitution scan with nothing new to do (fuel form); the `endswith`
hypothesis rules out the one shape (`... punct space space`) where the
appended spaces would merge with an existing match. -/
theorem dsSub_append_fuel :
    ∀ (n : Nat) (l : List Char), l.length ≤ n →
      ends2 (dsSubAux false l) = false →
      dsSubAux false (dsSubAux false l ++ [' ', ' ']) =
        dsSubAux false l ++ [' ', ' '] := by
  intro n
  induction n with
  | zero =>
    intro l hl _
    have : l = [] := List.length_eq_zero.mp (Nat.le_zero.mp hl)
    rw [this]
    rfl
  | succ n ih =>
    intro l hl hend
    cases l with
    | nil => rfl
    | cons c rest =>
      have hrestlen : rest.length ≤ n := by simpa using Nat.succ_le_succ_iff.mp hl
      by_cases h : (isSentPunct c && headWS rest) = true
      · -- matched branch: output c ++ two spaces ++ dsSubAux false R
        rw [dsSubAux_false_cons, if_pos h] at hend ⊢
        have hpunct : isSentPunct c = true := by
          have h2 := h
          simp only [Bool.and_eq_true] at h2
          exact h2.1
        rw [dsSubAux_true_eq rest] at hend ⊢
        have hRlen : (rest.dropWhile isWS).length ≤ n := by
          have h1 := dropWhile_ws_length rest
          omega
        rcases hT : dsSubAux false (rest.dropWhile isWS) with _ | ⟨t0, T'⟩
        · -- would end with two spaces, contradicting hend
          rw [hT] at hend
          simp [ends2] at hend
        · rw [hT] at hend
          have hRne : rest.dropWhile isWS ≠ [] := by
            intro hR0
            rw [hR0] at hT
            cases hT
          rcases hRc : rest.dropWhile isWS with _ | ⟨r0, R'⟩
          · exact absurd hRc hRne
          · have hr0 : isWS r0 = false := dropWhile_ws_head rest r0 R' hRc
            have ht0ws : isWS t0 = false := by
              have hh := dsSubAux_false_head (rest.dropWhile isWS)
              rw [hT, hRc] at hh
              simpa [headWS, hr0] using hh
            have hends2T : ends2 (t0 :: T') = false := by
              cases T' with
              | nil => rfl
              | cons t1 T2 => exact hend
            show dsSubAux false (c :: ' ' :: ' ' :: t0 :: (T' ++ [' ', ' '])) =
              c :: ' ' :: ' ' :: t0 :: (T' ++ [' ', ' '])
            rw [dsSub_punct_block c t0 (T' ++ [' ', ' ']) hpunct ht0ws]
            have hrw : t0 :: (T' ++ [' ', ' ']) = (t0 :: T') ++ [' ', ' '] := rfl
            rw [hrw, ← hT, ih _ hRlen (by rw [hT]; exact hends2T), hT]
      · -- unmatched branch: output c :: dsSubAux false rest
        have h' : (isSentPunct c && headWS rest) = false := by simpa using h
        rw [dsSubAux_false_cons, if_neg (by simp [h'])] at hend ⊢
        cases rest with
        | nil =>
          -- dsSubAux false [c ' ' ' '] is [c ' ' ' '] whatever c is
          show dsSubAux false (c :: [' ', ' ']) = c :: [' ', ' ']
          rw [dsSubAux_false_cons]
          by_cases hp : (isSentPunct c && headWS [' ', ' ']) = true
          · rw [if_pos hp]
            rfl
          · rw [if_neg hp]
            rfl
        | cons a as =>
          rcases hN : dsSubAux false (a :: as) with _ | ⟨n0, N''⟩
          · exact absurd hN (dsSubAux_false_ne_nil a as)
          · rw [hN] at hend
            have hends2N : ends2 (n0 :: N'') = false := by
              cases N'' with
              | nil => rfl
              | cons n1 N3 => exact hend
            have hheadn0 : isWS n0 = isWS a := by
              have hh := dsSubAux_false_head (a :: as)
              rw [hN] at hh
              simpa [headWS] using hh
            show dsSubAux false (c :: n0 :: (N'' ++ [' ', ' '])) =
              c :: n0 :: (N'' ++ [' ', ' '])
            rw [dsSubAux_false_cons]
            have hcond : (isSentPunct c && headWS (n0 :: (N'' ++ [' ', ' ']))) = false := by
              have hws : headWS (n0 :: (N'' ++ [' ', ' '])) = isWS a := by
                simp [headWS, hheadn0]
              rw [hws]
              simpa [headWS] using h'
            rw [if_neg (by simp [hcond])]
            have hrw : n0 :: (N'' ++ [' ', ' ']) = (n0 :: N'') ++ [' ', ' '] := rfl
            rw [hrw, ← hN, ih (a :: as) hrestlen (by rw [hN]; exact hends2N), hN]

/-- Appending the final two spaces to an already-substituted text leaves the
substitution scan with nothing new to do. -/
theorem dsSub_append_sp (l : List Char) (h : ends2 (dsSubAux false l) = false) :
    dsSubAux false (dsSubAux false l ++ [' ', ' ']) = dsSubAux false l ++ [' ', ' '] :=
  dsSub_append_fuel l.length l le_rfl h

/-- `_apply_double_space` always ends with the two-space suffix. -/
theorem applyDS_ends2 (l : List Char) : ends2 (applyDS l) = true := by
  rw [applyDS]
  split
  · next h => exact h
  · exact ends2_append_sp _

/-- The output of `_apply_double_space` is a fixed point of its
substitution pass. -/
theorem dsSub_applyDS_fix (l : List Char) :
    dsSubAux false (applyDS l) = applyDS l := by
  rw [applyDS]
  by_cases h : ends2 (dsSubAux false l) = true
  · rw [if_pos h]
    exact dsSub_idem l
  · rw [if_neg h]
    exact dsSub_append_sp l (by simpa using h)

/-- `_apply_double_space` is idempotent on character lists. -/
theorem applyDS_idem (l : List Char) : applyDS (applyDS l) = applyDS l := by
  conv_lhs => rw [applyDS]
  rw [dsSub_applyDS_fix, if_pos (applyDS_ends2 l)]

/-- C10: `_apply_double_space` is idempotent — applying it twice equals
applying it once — and its output always carries the guaranteed two-space
suffix. -/
theorem C10_double_space_idem (s : String) :
    apply_double_space (apply_double_space s) = apply_double_space s ∧
    ∃ u, (apply_double_space s).data = u ++ [' ', ' '] := by
  constructor
  · show String.mk (applyDS (String.mk (applyDS s.data)).data) = String.mk (applyDS s.data)
    have hdata : (String.mk (applyDS s.data)).data = applyDS s.data := rfl
    rw [hdata, applyDS_idem]
  · exact ends2_exists _ (applyDS_ends2 s.data)

/-! Facts about digit characters and unit glyphs, for the duration parser's
round-trip property. -/

/-- A decimal digit's code point bounds, in usable form. -/
theorem digit_bounds (c : Char) (hd : pyIsDigit c = true) :
    48 ≤ c.toNat ∧ c.toNat ≤ 57 := by
  simpa [pyIsDigit, Bool.and_eq_true, decide_eq_true_eq] using hd

/-- Digits are no stop-word: the ordered alternation never fires on one. -/
theorem digit_stopMatch (c : Char) (hd : pyIsDigit c = true) (rest : List Char) :
    stopMatch c rest = none := by
  have hb := digit_bounds c hd
  have hi : c ≠ 'и' := by
    intro h
    rw [h] at hb
    exact absurd hb (by decide)
  have hv : c ≠ 'в' := by
    intro h
    rw [h] at hb
    exact absurd hb (by decide)
  have hn : c ≠ 'н' := by
    intro h
    rw [h] at hb
    exact absurd hb (by decide)
  have hlc : c ≠ 'c' := by
    intro h
    rw [h] at hb
    exact absurd hb (by decide)
  have hcc : c ≠ 'с' := by
    intro h
    rw [h] at hb
    exact absurd hb (by decide)
  simp [stopMatch, hi, hv, hn, hlc, hcc]

/-- Digits are untouched by `str.lower()`. -/
theorem digit_pyLower (c : Char) (hd : pyIsDigit c = true) : pyLower c = c := by
  have hb := digit_bounds c hd
  rw [pyLower, if_neg (by omega), if_neg (by omega), if_neg (by omega)]

/-- Digits are not in the punctuation-replacement class. -/
theorem digit_not_punct (c : Char) (hd : pyIsDigit c = true) : isPunctChar c = false := by
  have hb := digit_bounds c hd
  simp only [isPunctChar, Bool.or_eq_false_iff, decide_eq_false_iff_not]
  omega

/-- Digits are word characters. -/
theorem digit_word (c : Char) (hd : pyIsDigit c = true) : isWordChar c = true := by
  have hb := digit_bounds c hd
  simp only [isWordChar, Bool.or_eq_true, Bool.and_eq_true, decide_eq_true_eq]
  omega

/-- Digits are not whitespace. -/
theorem digit_not_ws (c : Char) (hd : pyIsDigit c = true) : isWS c = false := by
  have hb := digit_bounds c hd
  simp only [isWS, Bool.or_eq_false_iff, decide_eq_false_iff_not]
  omega

/-- Digits are not the comma. -/
theorem digit_ne_comma (c : Char) (hd : pyIsDigit c = true) : c ≠ ',' := by
  have hb := digit_bounds c hd
  intro h
  rw [h] at hb
  exact absurd hb (by decide)

/-- A character-wise identity map is the identity. -/
theorem map_id_of (f : Char → Char) :
    ∀ l : List Char, (∀ c ∈ l, f c = c) → l.map f = l := by
  intro l
  induction l with
  | nil => intro _; rfl
  | cons c rest ih =>
    intro h
    rw [List.map_cons, h c (List.mem_cons_self c rest),
      ih (fun x hx => h x (List.mem_cons_of_mem c hx))]

/-- A comma-free list fails the `","` containment test. -/
theorem contains_comma_false :
    ∀ l : List Char, (∀ c ∈ l, c ≠ ',') → l.contains ',' = false := by
  intro l
  induction l with
  | nil => intro _; rfl
  | cons c rest ih =>
    intro h
    rw [List.contains_cons, ih (fun x hx => h x (List.mem_cons_of_mem c hx))]
    simp [beq_eq_false_iff_ne]
    exact fun heq => h c (List.mem_cons_self c rest) heq.symm

/-- Stop-word removal is the identity on an all-word-character tail (the
left `\b` never holds inside a word). -/
theorem removeStops_word_run :
    ∀ l : List Char, (∀ c ∈ l, isWordChar c = true) → removeStopsAux true l = l := by
  intro l
  induction l with
  | nil => intro _; rfl
  | cons c rest ih =>
    intro h
    show c :: removeStopsAux (isWordChar c) rest = c :: rest
    rw [h c (List.mem_cons_self c rest), ih (fun x hx => h x (List.mem_cons_of_mem c hx))]

/-- `removeStopsAux` on the empty tail, whatever the flag. -/
theorem removeStopsAux_nil (b : Bool) : removeStopsAux b [] = [] := by
  cases b <;> rfl

/-- Stop-word removal is the identity on a digit-headed all-word string. -/
theorem removeStops_digit_entry (c : Char) (rest : List Char)
    (hd : pyIsDigit c = true) (hrest : ∀ x ∈ rest, isWordChar x = true) :
    removeStopsAux false (c :: rest) = c :: rest := by
  have hs := digit_stopMatch c hd rest
  cases rest with
  | nil =>
    unfold removeStopsAux
    rw [hs]
    show c :: removeStopsAux (isWordChar c) [] = [c]
    rw [removeStopsAux_nil]
  | cons d rest' =>
    unfold removeStopsAux
    rw [hs, digit_word c hd, removeStops_word_run (d :: rest') hrest]

/-- Whitespace collapsing is the identity on whitespace-free text. -/
theorem collapseWS_nows :
    ∀ l : List Char, (∀ c ∈ l, isWS c = false) → collapseWSAux false l = l := by
  intro l
  induction l with
  | nil => intro _; rfl
  | cons c rest ih =>
    intro h
    have hc := h c (List.mem_cons_self c rest)
    simp [collapseWSAux, hc, ih (fun x hx => h x (List.mem_cons_of_mem c hx))]

/-- `dropWhile` is the identity on whitespace-free text. -/
theorem dropWhile_nows (l : List Char) (h : ∀ c ∈ l, isWS c = false) :
    l.dropWhile isWS = l := by
  cases l with
  | nil => rfl
  | cons c rest =>
    rw [List.dropWhile_cons_of_neg (by simp [h c (List.mem_cons_self c rest)])]

/-- Stripping is the identity on whitespace-free text. -/
theorem stripWS_nows (l : List Char) (h : ∀ c ∈ l, isWS c = false) :
    stripWS l = l := by
  rw [stripWS, dropWhile_nows l h,
    dropWhile_nows l.reverse (fun c hc => h c (List.mem_reverse.mp hc)),
    List.reverse_reverse]

/-- Scanning a digit run followed by a single unit letter yields exactly one
match, whose number accumulates the digits decimally. -/
theorem scan_num_digits (u : Char) (hu : isUnitLetter u = true)
    (hud : pyIsDigit u = false) (huw : isWS u = false) :
    ∀ (d : List Char) (a : Nat), (∀ c ∈ d, pyIsDigit c = true) →
      scanAux (ScanSt.num a) (d ++ [u]) =
        [(d.foldl (fun x c => 10 * x + digitVal c) a, [u])] := by
  intro d
  induction d with
  | nil =>
    intro a _
    show scanAux (ScanSt.num a) [u] = [(a, [u])]
    simp [scanAux, hud, huw, hu]
  | cons c d' ih =>
    intro a h
    have hc := h c (List.mem_cons_self c d')
    show scanAux (ScanSt.num a) (c :: (d' ++ [u])) = _
    simp only [scanAux, hc, if_pos]
    rw [ih (10 * a + digitVal c) (fun x hx => h x (List.mem_cons_of_mem c hx))]
    rfl

/-- `parse_duration_to_seconds` on a digit string followed by one unit
glyph: the cleanup stages are the identity, the scanner finds the single
match, and the total is the glyph's weight times the digits' value. -/
theorem pd_digit_unit (d : List Char) (u : Char) (k : Nat)
    (hd : ∀ c ∈ d, pyIsDigit c = true) (hne : d ≠ [])
    (hu : isUnitLetter u = true) (hud : pyIsDigit u = false) (huw : isWS u = false)
    (hlu : pyLower u = u) (hpu : isPunctChar u = false) (hwu : isWordChar u = true)
    (hcu : u ≠ ',') (hum : unitMult u = some k) (hk : 0 < k)
    (hn : 0 < digitsVal d) :
    parse_duration_to_seconds (String.mk (d ++ [u])) = some (k * digitsVal d) := by
  have hall : ∀ c ∈ d ++ [u], pyIsDigit c = true ∨ c = u := by
    intro c hc
    rcases List.mem_append.mp hc with hcd | hcu2
    · exact Or.inl (hd c hcd)
    · exact Or.inr (by simpa using hcu2)
  have hclean : pdClean (String.mk (d ++ [u])) = d ++ [u] := by
    rw [pdClean]
    have hdata : (String.mk (d ++ [u])).data = d ++ [u] := rfl
    rw [hdata]
    rw [contains_comma_false (d ++ [u]) (fun c hc => by
      rcases hall c hc with h1 | h1
      · exact digit_ne_comma c h1
      · rw [h1]; exact hcu)]
    show stripWS (collapseWSAux false (removeStopsAux false
      (((d ++ [u]).map pyLower).map fun c => if isPunctChar c then ' ' else c))) = d ++ [u]
    rw [map_id_of pyLower (d ++ [u]) (fun c hc => by
      rcases hall c hc with h1 | h1
      · exact digit_pyLower c h1
      · rw [h1]; exact hlu)]
    rw [map_id_of _ (d ++ [u]) (fun c hc => by
      rcases hall c hc with h1 | h1
      · rw [digit_not_punct c h1]; rfl
      · rw [h1, hpu]; rfl)]
    have hword : ∀ c ∈ d ++ [u], isWordChar c = true := fun c hc => by
      rcases hall c hc with h1 | h1
      · exact digit_word c h1
      · rw [h1]; exact hwu
    have hnws : ∀ c ∈ d ++ [u], isWS c = false := fun c hc => by
      rcases hall c hc with h1 | h1
      · exact digit_not_ws c h1
      · rw [h1]; exact huw
    rcases hdc : d with _ | ⟨c0, d'⟩
    · exact absurd hdc hne
    · rw [List.cons_append]
      rw [removeStops_digit_entry c0 (d' ++ [u]) (hd c0 (by rw [hdc]; exact List.mem_cons_self c0 d'))
        (fun x hx => hword x (by rw [hdc, List.cons_append]; exact List.mem_cons_of_mem c0 hx))]
      rw [← List.cons_append]
      rw [collapseWS_nows _ (fun x hx => hnws x (by rw [hdc]; exact hx))]
      exact stripWS_nows _ (fun x hx => hnws x (by rw [hdc]; exact hx))
  have hscan : scanAux ScanSt.idle (d ++ [u]) = [(digitsVal d, [u])] := by
    rcases d with _ | ⟨c0, d'⟩
    · exact absurd rfl hne
    · have hc0 : pyIsDigit c0 = true := hd c0 (List.mem_cons_self c0 d')
      show scanAux ScanSt.idle (c0 :: (d' ++ [u])) = [(digitsVal (c0 :: d'), [u])]
      simp only [scanAux, hc0, if_pos]
      rw [scan_num_digits u hu hud huw d' (digitVal c0)
        (fun x hx => hd x (List.mem_cons_of_mem c0 hx))]
      have hdv : digitsVal (c0 :: d') =
          d'.foldl (fun x c => 10 * x + digitVal c) (digitVal c0) := by
        show List.foldl (fun x c => 10 * x + digitVal c) (10 * 0 + digitVal c0) d' =
          List.foldl (fun x c => 10 * x + digitVal c) (digitVal c0) d'
        norm_num
      rw [hdv]
  have hfold : List.foldl (fun t m =>
      match unitMult (firstCharD m.2) with
      | some k2 => t + k2 * m.1
      | none => t) 0 [(digitsVal d, [u])] = k * digitsVal d := by
    show (match unitMult (firstCharD [u]) with
      | some k2 => 0 + k2 * digitsVal d
      | none => 0) = k * digitsVal d
    rw [show firstCharD [u] = u from rfl, hum]
    show 0 + k * digitsVal d = k * digitsVal d
    omega
  have htot : pdTotal (String.mk (d ++ [u])) = k * digitsVal d := by
    simp only [pdTotal]
    rw [hclean, hscan, hfold, if_neg (by have := Nat.mul_pos hk hn; omega)]
  rw [parse_duration_to_seconds, htot, if_pos (Nat.mul_pos hk hn)]

/-- C6 (counterexample): the claim reads `parse_duration(str(n) + glyph)`
as returning `n` for the hour/minute glyphs too, but an hour glyph weighs
3600: `"1h"` parses to 3600 seconds, not 1. -/
theorem C6_counterexample :
    parse_duration_to_seconds "1h" = some 3600 ∧ (3600 : Nat) ≠ 1 :=
  ⟨rfl, by decide⟩

/-- C6 (amended): for every non-empty decimal digit string of positive
value `n`, the parser returns `n` for the second glyphs (`s`, `с`),
`60 * n` for the minute glyphs (`m`, `м`) and `3600 * n` for the hour
glyphs (`h`, `ч`) of the two supported languages. -/
theorem C6_duration_round_trip (d : List Char)
    (hd : ∀ c ∈ d, pyIsDigit c = true) (hne : d ≠ []) (hpos : 0 < digitsVal d) :
    parse_duration_to_seconds (String.mk (d ++ ['s'])) = some (digitsVal d) ∧
    parse_duration_to_seconds (String.mk (d ++ ['с'])) = some (digitsVal d) ∧
    parse_duration_to_seconds (String.mk (d ++ ['m'])) = some (60 * digitsVal d) ∧
    parse_duration_to_seconds (String.mk (d ++ ['м'])) = some (60 * digitsVal d) ∧
    parse_duration_to_seconds (String.mk (d ++ ['h'])) = some (3600 * digitsVal d) ∧
    parse_duration_to_seconds (String.mk (d ++ ['ч'])) = some (3600 * digitsVal d) := by
  refine ⟨?_, ?_, ?_, ?_, ?_, ?_⟩
  · simpa using pd_digit_unit d 's' 1 hd hne (by decide) (by decide) (by decide)
      (by decide) (by decide) (by decide) (by decide) (by decide) (by decide) hpos
  · simpa using pd_digit_unit d 'с' 1 hd hne (by decide) (by decide) (by decide)
      (by decide) (by decide) (by decide) (by decide) (by decide) (by decide) hpos
  · exact pd_digit_unit d 'm' 60 hd hne (by decide) (by decide) (by decide)
      (by decide) (by decide) (by decide) (by decide) (by decide) (by decide) hpos
  · exact pd_digit_unit d 'м' 60 hd hne (by decide) (by decide) (by decide)
      (by decide) (by decide) (by decide) (by decide) (by decide) (by decide) hpos
  · exact pd_digit_unit d 'h' 3600 hd hne (by decide) (by decide) (by decide)
      (by decide) (by decide) (by decide) (by decide) (by decide) (by decide) hpos
  · exact pd_digit_unit d 'ч' 3600 hd hne (by decide) (by decide) (by decide)
      (by decide) (by decide) (by decide) (by decide) (by decide) (by decide) hpos

/-- Concrete instantiation of the amended C6 theorem at `n = 25`. -/
theorem C6_duration_round_trip_witness :
    parse_duration_to_seconds (String.mk (['2', '5'] ++ ['s'])) = some 25 ∧
    parse_duration_to_seconds (String.mk (['2', '5'] ++ ['с'])) = some 25 ∧
    parse_duration_to_seconds (String.mk (['2', '5'] ++ ['m'])) = some 1500 ∧
    parse_duration_to_seconds (String.mk (['2', '5'] ++ ['м'])) = some 1500 ∧
    parse_duration_to_seconds (String.mk (['2', '5'] ++ ['h'])) = some 90000 ∧
    parse_duration_to_seconds (String.mk (['2', '5'] ++ ['ч'])) = some 90000 :=
  C6_duration_round_trip ['2', '5'] (by decide) (by decide) (by decide)

/-- A dispatch never changes a workflow's id. -/
theorem bumpStep_id (now : Int) (env : BumpEnv) (t t' : BTask) (subs : List STask)
    (h : bumpStep now env t = some (t', subs)) : t'.id = t.id := by
  rcases ht : t.status with _ | _ | _ | _ | _ | _ | _ | _
  · by_cases hs : t.start_time ≤ now <;>
      · simp [bumpStep, ht, hs] at h
        simp [← h.1]
  · by_cases hs : env.send t.command t.double_enter t.double_space = true <;>
      · simp [bumpStep, ht, hs] at h
        simp [← h.1]
  · by_cases hs : t.response_deadline ≤ now <;>
      · simp [bumpStep, ht, hs] at h
        simp [← h.1]
  · rcases hc : env.capture with _ | m
    · simp [bumpStep, ht, hc] at h
      simp [← h.1]
    · by_cases hm : m = "" <;>
        · simp [bumpStep, ht, hc, hm] at h
          simp [← h.1]
  · by_cases hp : (parse_time_from_message t.message).success = true <;>
      · simp [bumpStep, ht, hp] at h
        simp [← h.1]
  · simp [bumpStep, ht] at h
    simp [← h.1]
  · simp [bumpStep, ht] at h
  · simp [bumpStep, ht] at h

/-- A terminal (`failed`/`completed`) workflow is removed by its dispatch. -/
theorem bumpStep_terminal (now : Int) (env : BumpEnv) (t : BTask)
    (h : t.status = BStatus.failed ∨ t.status = BStatus.completed) :
    bumpStep now env t = none := by
  rcases h with h | h <;> simp [bumpStep, h]

/-- A `reading` workflow whose capture comes back `None` or empty fails. -/
theorem bumpStep_reading_fail (now : Int) (env : BumpEnv) (t : BTask)
    (ht : t.status = BStatus.reading)
    (hc : env.capture = none ∨ env.capture = some "") :
    bumpStep now env t = some ({ t with status := BStatus.failed }, []) := by
  rcases hc with hc | hc <;> simp [bumpStep, ht, hc]

/-- Membership in the post-tick active list: exactly the successful
dispatches of pre-tick members. -/
theorem mem_execute_bump (now : Int) (env : BumpEnv) (ts : List BTask) (u : BTask) :
    u ∈ (execute_bump_tasks now env ts).1 ↔
      ∃ v ∈ ts, ∃ subs, bumpStep now env v = some (u, subs) := by
  induction ts with
  | nil => simp [execute_bump_tasks]
  | cons t rest ih =>
    rcases hs : bumpStep now env t with _ | p
    · simp only [execute_bump_tasks, hs, ih, List.mem_cons]
      constructor
      · rintro ⟨v, hv, subs, hstep⟩
        exact ⟨v, Or.inr hv, subs, hstep⟩
      · rintro ⟨v, hv | hv, subs, hstep⟩
        · rw [hv] at hstep
          rw [hs] at hstep
          cases hstep
        · exact ⟨v, hv, subs, hstep⟩
    · rcases p with ⟨t', subs'⟩
      simp only [execute_bump_tasks, hs, List.mem_cons, ih]
      constructor
      · rintro (rfl | ⟨v, hv, subs, hstep⟩)
        · exact ⟨t, Or.inl rfl, subs', hs⟩
        · exact ⟨v, Or.inr hv, subs, hstep⟩
      · rintro ⟨v, hv | hv, subs, hstep⟩
        · rw [hv] at hstep
          rw [hs] at hstep
          cases hstep with
          | refl => exact Or.inl rfl
        · exact Or.inr ⟨v, hv, subs, hstep⟩

/-- In a list with pairwise-distinct ids, members sharing an id coincide. -/
theorem pairwise_id_eq {l : List BTask}
    (hp : l.Pairwise (fun a b => a.id ≠ b.id)) {a b : BTask}
    (ha : a ∈ l) (hb : b ∈ l) (hid : a.id = b.id) : a = b := by
  induction l with
  | nil => cases ha
  | cons x xs ih =>
    rcases List.pairwise_cons.mp hp with ⟨hx, hxs⟩
    rcases List.mem_cons.mp ha with ha' | ha' <;> rcases List.mem_cons.mp hb with hb' | hb'
    · rw [ha', hb']
    · exact absurd hid (by rw [ha']; exact hx b hb')
    · exact absurd hid.symm (by rw [hb']; exact hx a ha')
    · exact ih hxs ha' hb'

/-- If every workflow with a given id is `failed`, a tick keeps it so (in
fact such workflows are removed, so none with that id survives). -/
theorem failed_id_preserved {i : Nat} {ts : List BTask}
    (h : ∀ u ∈ ts, u.id = i → u.status = BStatus.failed) (now : Int) (env : BumpEnv) :
    ∀ u ∈ (execute_bump_tasks now env ts).1, u.id = i → u.status = BStatus.failed := by
  intro u hu hid
  rcases (mem_execute_bump now env ts u).mp hu with ⟨v, hv, subs, hstep⟩
  have hvid : v.id = i := by rw [← bumpStep_id now env v u subs hstep, hid]
  have hvf := h v hv hvid
  rw [bumpStep_terminal now env v (Or.inl hvf)] at hstep
  cases hstep

/-- Iterating ticks preserves the all-`failed`-at-id invariant. -/
theorem ticksFrom_failed {i : Nat} :
    ∀ (steps : List (Int × BumpEnv)) (ts : List BTask),
      (∀ u ∈ ts, u.id = i → u.status = BStatus.failed) →
      ∀ u ∈ ticksFrom steps ts, u.id = i → u.status = BStatus.failed := by
  intro steps
  induction steps with
  | nil =>
    intro ts h
    simpa [ticksFrom] using h
  | cons p rest ih =>
    intro ts h
    rcases p with ⟨n, e⟩
    exact ih _ (failed_id_preserved h n e)

/-- C3: a `reading` workflow whose UI capture returns `None` or empty text
becomes `failed` on that tick, is removed from the active collection by the
next tick that observes it, and on no later tick does any workflow with its
id sit in `reading` again. -/
theorem C3_reading_empty_capture (now : Int) (env : BumpEnv) (tasks : List BTask)
    (t : BTask) (hp : tasks.Pairwise (fun a b => a.id ≠ b.id))
    (hmem : t ∈ tasks) (hread : t.status = BStatus.reading)
    (hcap : env.capture = none ∨ env.capture = some "") :
    (∃ u ∈ (execute_bump_tasks now env tasks).1,
        u.id = t.id ∧ u.status = BStatus.failed) ∧
    (∀ u ∈ (execute_bump_tasks now env tasks).1,
        u.id = t.id → u.status = BStatus.failed) ∧
    (∀ now2 env2 u,
        u ∈ (execute_bump_tasks now2 env2 (execute_bump_tasks now env tasks).1).1 →
        u.id ≠ t.id) ∧
    (∀ steps u, u ∈ ticksFrom steps (execute_bump_tasks now env tasks).1 →
        u.id = t.id → u.status ≠ BStatus.reading) := by
  have hstep := bumpStep_reading_fail now env t hread hcap
  have hfail : ∀ u ∈ (execute_bump_tasks now env tasks).1,
      u.id = t.id → u.status = BStatus.failed := by
    intro u hu hid
    rcases (mem_execute_bump now env tasks u).mp hu with ⟨v, hv, subs, hvstep⟩
    have hvid : v.id = t.id := by rw [← bumpStep_id now env v u subs hvstep, hid]
    have hvt : v = t := pairwise_id_eq hp hv hmem hvid
    rw [hvt, hstep] at hvstep
    cases hvstep with
    | refl => rfl
  refine ⟨?_, hfail, ?_, ?_⟩
  · refine ⟨{ t with status := BStatus.failed },
      (mem_execute_bump now env tasks _).mpr ⟨t, hmem, [], hstep⟩, rfl, rfl⟩
  · intro now2 env2 u hu hid
    rcases (mem_execute_bump now2 env2 _ u).mp hu with ⟨v, hv, subs, hvstep⟩
    have hvid : v.id = t.id := by rw [← bumpStep_id now2 env2 v u subs hvstep, hid]
    have hvf := hfail v hv hvid
    rw [bumpStep_terminal now2 env2 v (Or.inl hvf)] at hvstep
    cases hvstep
  · intro steps u hu hid
    rw [ticksFrom_failed steps _ hfail u hu hid]
    intro hcontra
    cases hcontra

/-- A `reading` workflow for the C3 instantiation. -/
def c3task : BTask :=
  { id := 7, command := "/getbump", start_time := 0,
    commands_to_schedule := ["/up", "/bump", "/like"], double_enter := false,
    double_space := true, status := BStatus.reading }

/-- A tick environment whose capture comes back empty, for C3. -/
def c3env : BumpEnv := ⟨fun _ _ _ => true, none⟩

/-- Concrete instantiation of the C3 theorem on a singleton active list. -/
theorem C3_reading_empty_capture_witness :
    (∃ u ∈ (execute_bump_tasks 2 c3env [c3task]).1,
        u.id = c3task.id ∧ u.status = BStatus.failed) ∧
    (∀ u ∈ (execute_bump_tasks 2 c3env [c3task]).1,
        u.id = c3task.id → u.status = BStatus.failed) ∧
    (∀ now2 env2 u,
        u ∈ (execute_bump_tasks now2 env2 (execute_bump_tasks 2 c3env [c3task]).1).1 →
        u.id ≠ c3task.id) ∧
    (∀ steps u, u ∈ ticksFrom steps (execute_bump_tasks 2 c3env [c3task]).1 →
        u.id = c3task.id → u.status ≠ BStatus.reading) :=
  C3_reading_empty_capture 2 c3env [c3task] c3task (by simp) (by simp) rfl (Or.inl rfl)

/-- A fallible executor for the C4 instantiations: raises on `/a`. -/
def c4send : String → Bool → Bool → Except String Bool :=
  fun c _ _ => if c = "/a" then Except.error "boom" else Except.ok true

/-- First due entry for C4; its executor call raises. -/
def c4a : STask :=
  { id := "1", time := 0, command := "/a", double_enter := false,
    double_space := false, status := SStatus.pending }

/-- Second due entry for C4; its executor call would succeed. -/
def c4b : STask :=
  { id := "2", time := 0, command := "/b", double_enter := false,
    double_space := false, status := SStatus.pending }

/-- A not-yet-due entry for the C4 witness. -/
def c4skip : STask :=
  { id := "0", time := 99, command := "/c", double_enter := false,
    double_space := false, status := SStatus.pending }

/-- C4 (counterexample): with two due commands, a fault raised while
executing the first aborts the tick — the call trace carried by the error
holds only the first invocation, so the second command was never processed
— and the loop, offered three iterations' worth of clock values, completes
zero of them before the loop-level handler ends it. -/
theorem C4_counterexample :
    execute_scheduled_tasksE 10 c4send [c4a, c4b] =
      Except.error ("boom", [("/a", false, false)]) ∧
    tickLoopE c4send [10, 20, 30] [c4a, c4b] = (0, some "boom") :=
  ⟨rfl, rfl⟩

/-- C4 (amended): an uncaught executor fault while processing one due
command propagates out of `execute_scheduled_tasks`: the tick aborts with
only that entity's invocation performed (entries after it are not
processed), and `main_loop`'s catch-all handler then ends the tick loop, so
no further iteration runs.  Faults are not isolated to the failing
entity. -/
theorem C4_fault_propagation (now : Int)
    (send : String → Bool → Bool → Except String Bool)
    (pre post : List STask) (t : STask) (msg : String) (times : List Int)
    (hpre : ∀ p ∈ pre, dueNow now p = false)
    (ht : dueNow now t = true)
    (hsend : send t.command t.double_enter t.double_space = Except.error msg) :
    execute_scheduled_tasksE now send (pre ++ t :: post) =
      Except.error (msg, [(t.command, t.double_enter, t.double_space)]) ∧
    tickLoopE send (now :: times) (pre ++ t :: post) = (0, some msg) := by
  have hmain : ∀ pre2 : List STask, (∀ p ∈ pre2, dueNow now p = false) →
      execute_scheduled_tasksE now send (pre2 ++ t :: post) =
        Except.error (msg, [(t.command, t.double_enter, t.double_space)]) := by
    intro pre2
    induction pre2 with
    | nil =>
      intro _
      have hc : ¬ (t.status ≠ SStatus.pending ∨ now < t.time) := by
        rw [skip_iff_not_due, ht]
        simp
      show execute_scheduled_tasksE now send (t :: post) = _
      unfold execute_scheduled_tasksE
      rw [if_neg hc, hsend]
    | cons p pre' ih =>
      intro hpre2
      have hskip : p.status ≠ SStatus.pending ∨ now < p.time :=
        (skip_iff_not_due now p).mpr (hpre2 p (List.mem_cons_self p pre'))
      show execute_scheduled_tasksE now send (p :: (pre' ++ t :: post)) = _
      unfold execute_scheduled_tasksE
      rw [if_pos hskip, ih (fun q hq => hpre2 q (List.mem_cons_of_mem p hq))]
  refine ⟨hmain pre hpre, ?_⟩
  show (match execute_scheduled_tasksE now send (pre ++ t :: post) with
    | Except.error e => (0, some e.1)
    | Except.ok r => ((tickLoopE send times r.1).1 + 1, (tickLoopE send times r.1).2)) =
      ((0 : Nat), some msg)
  rw [hmain pre hpre]

/-- Concrete instantiation of the amended C4 theorem: one not-yet-due entry
is kept, the first due entry raises, the tick aborts and the loop ends. -/
theorem C4_fault_propagation_witness :
    execute_scheduled_tasksE 10 c4send ([c4skip] ++ c4a :: [c4b]) =
      Except.error ("boom", [("/a", false, false)]) ∧
    tickLoopE c4send (10 :: [20, 30]) ([c4skip] ++ c4a :: [c4b]) = (0, some "boom") :=
  C4_fault_propagation 10 c4send [c4skip] [c4b] c4a "boom" [20, 30]
    (by decide) (by decide) rfl

/-- `lookupCmdTime` (the `for line ... break` loop body) consults exactly
the first line containing the command: it equals `List.find?` of the
containment test followed by the line-extraction, so later lines are never
consulted, whether or not the first matching line's duration parses. -/
theorem lookup_eq_find (cmd : List Char) (ls : List (List Char)) :
    lookupCmdTime cmd ls = (ls.find? (containsCI cmd)).bind extract_time_from_line := by
  induction ls with
  | nil => rfl
  | cons ln rest ih =>
    by_cases h : containsCI cmd ln = true
    · rw [lookupCmdTime, if_pos h, List.find?_cons_of_pos _ h]
      rfl
    · have h' : containsCI cmd ln = false := by simpa using h
      rw [lookupCmdTime, if_neg (by simp [h']), List.find?_cons_of_neg _ (by simp [h']), ih]

/-- C8: `parse_time_from_message` resolves each command from the first
candidate-block line that mentions it — if that line's duration fails to
parse the command stays `none` even when a later line would parse — and
`success` is true iff at least one of the three commands resolved. -/
theorem C8_first_match_wins :
    (∀ msg : String, (parse_time_from_message msg).success = true ↔
      ((parse_time_from_message msg).up ≠ none ∨
       (parse_time_from_message msg).bump ≠ none ∨
       (parse_time_from_message msg).like ≠ none)) ∧
    (∀ msg block, extract_latest_bump_message msg = some block → block ≠ "" →
      (parse_time_from_message msg).up =
        ((pySplitlines block.data).find? (containsCI ['/', 'u', 'p'])).bind
          extract_time_from_line ∧
      (parse_time_from_message msg).bump =
        ((pySplitlines block.data).find? (containsCI ['/', 'b', 'u', 'm', 'p'])).bind
          extract_time_from_line ∧
      (parse_time_from_message msg).like =
        ((pySplitlines block.data).find? (containsCI ['/', 'l', 'i', 'k', 'e'])).bind
          extract_time_from_line) := by
  have bool3 : ∀ u b k : Option Nat,
      (u.isSome || b.isSome || k.isSome) = true ↔ (u ≠ none ∨ b ≠ none ∨ k ≠ none) := by
    intro u b k
    cases u <;> cases b <;> cases k <;> simp
  constructor
  · intro msg
    rcases h : extract_latest_bump_message msg with _ | block
    · simp [parse_time_from_message, h]
    · by_cases hb : block = ""
      · simp [parse_time_from_message, h, hb]
      · simp [parse_time_from_message, h, hb, bool3]
  · intro msg block h hb
    refine ⟨?_, ?_, ?_⟩ <;> simp [parse_time_from_message, h, hb, lookup_eq_find]

/-- A captured message for the C8 instantiation: two candidate lines both
mentioning `/up`. -/
def c8msg : String := ":A: /up 4s zz\n:B: /up 9s"

/-- Concrete instantiation of the C8 theorem on `c8msg` (whose candidate
block is the message itself). -/
theorem C8_first_match_wins_witness :
    (parse_time_from_message c8msg).up =
      ((pySplitlines c8msg.data).find? (containsCI ['/', 'u', 'p'])).bind
        extract_time_from_line ∧
    (parse_time_from_message c8msg).bump =
      ((pySplitlines c8msg.data).find? (containsCI ['/', 'b', 'u', 'm', 'p'])).bind
        extract_time_from_line ∧
    (parse_time_from_message c8msg).like =
      ((pySplitlines c8msg.data).find? (containsCI ['/', 'l', 'i', 'k', 'e'])).bind
        extract_time_from_line :=
  C8_first_match_wins.2 c8msg c8msg rfl (by decide)

/-- C7: `parse_duration_to_seconds` is total (the embedding returns for
every string, mirroring the catch-all `except` that turns any internal
failure into `None`), and its result is `none` or a strictly positive
count of seconds; in particular the empty string parses to `none`. -/
theorem C7_parse_duration_none_or_positive :
    (∀ text : String, parse_duration_to_seconds text = none ∨
      ∃ n : Nat, 0 < n ∧ parse_duration_to_seconds text = some n) ∧
    parse_duration_to_seconds "" = none := by
  constructor
  · intro text
    unfold parse_duration_to_seconds
    split
    · next h => exact Or.inr ⟨pdTotal text, h, rfl⟩
    · exact Or.inl rfl
  · rfl

end BumpBot
